import Mathlib

set_option maxRecDepth 200000

/-!
Verification development for the blog-search service in `WebScrapping.py`.

Modelling conventions (shallow embedding):
* Python strings are modelled as `List Char` (`Str`).  Python's string
  operations used by the source (`lower`, `replace`, `split`, `strip`,
  slicing, `in`) are re-implemented structurally below so that every
  definition evaluates by kernel reduction.
* `difflib.SequenceMatcher` is embedded exactly (the `find_longest_match`
  dynamic program and the recursive matching-block decomposition), for the
  no-junk case: the service compares slugs/titles/queries, and `autojunk`
  only changes behaviour when the second sequence has at least 200
  characters.  `ratio()` values are kept as exact fractions
  `(2*matches, len(a)+len(b))` and compared by cross-multiplication; for
  the string lengths arising here this agrees with CPython's float
  comparison (the float rounding error of `2.0*matches/length` is far
  below the gap between distinct small-denominator rationals).
* Network and HTML-parsing collaborators (`requests`, `BeautifulSoup`,
  `urljoin`) are oracles supplied in an environment record; the repo's own
  logic (filtering, mapping, matching, assembling results) is translated
  from the source.
-/

/-- Python strings, modelled as lists of unicode code points. -/
abbrev Str := List Char

/-- Python `a < b` on strings: lexicographic comparison by code point. -/
def charListLt : Str → Str → Bool
  | _, [] => false
  | [], _ :: _ => true
  | a :: as, b :: bs =>
    if a.toNat < b.toNat then true
    else if b.toNat < a.toNat then false
    else charListLt as bs

/-- Python `pat in s` (substring containment): does `l` start with `pat`? -/
def startsWithL : Str → Str → Bool
  | [], _ => true
  | _ :: _, [] => false
  | p :: ps, x :: xs => p == x && startsWithL ps xs

/-- Python `pat in s`: substring containment. -/
def containsSub (pat : Str) : Str → Bool
  | [] => startsWithL pat []
  | x :: xs => startsWithL pat (x :: xs) || containsSub pat xs

/-- Python `s.split(sep)` for a one-character separator (the code splits
paths on `"/"`). -/
def splitChar (c : Char) : Str → List Str
  | [] => [[]]
  | x :: xs =>
    let r := splitChar c xs
    if x == c then [] :: r else (x :: r.headD []) :: r.tail

/-- Whitespace for Python `str.strip()` (modelled for the ASCII whitespace
appearing in scraped text). -/
def isPyWs (c : Char) : Bool := c == ' ' || c == '\t' || c == '\n' || c == '\r'

/-- Python `s.strip()`. -/
def stripL (l : Str) : Str :=
  ((l.dropWhile isPyWs).reverse.dropWhile isPyWs).reverse

/-- Python `"\n".join(xs)`. -/
def joinNl (xs : List Str) : Str := List.intercalate ['\n'] xs

/-!  ## The similarity metric: `difflib.SequenceMatcher` (no junk)

`find_longest_match(alo, ahi, blo, bhi)` scans `i` over `[alo, ahi)`; for
each `i` it builds `newj2len` (`newj2len[j] = j2len[j-1] + 1` for every
`j ∈ [blo, bhi)` with `b[j] == a[i]`) and records the first block that
strictly improves on the best size, as `(i-k+1, j-k+1, k)`.  With no junk
characters the four junk-extension `while` loops of the CPython source
cannot fire (they would contradict maximality of the found block), so they
are omitted.  `j2len` is modelled as a total function that is `0` exactly
where the CPython dict has no entry. -/

/-- One column of the `find_longest_match` dynamic program: the
`newj2len` table built while scanning row `i`, whose character is `c`. -/
def flmCol (b : Str) (c : Char) (blo bhi : Nat) (j2len : Nat → Nat) : Nat → Nat :=
  fun j =>
    if blo ≤ j ∧ j < bhi ∧ b.getD j 'a' = c then
      (if j = 0 then 0 else j2len (j - 1)) + 1
    else 0

/-- The best-block update for one cell `(i, j)`:
`if k > bestsize: best = (i-k+1, j-k+1, k)`. -/
def flmUpd (nj : Nat → Nat) (i : Nat) (bst : Nat × Nat × Nat) (j : Nat) :
    Nat × Nat × Nat :=
  if bst.2.2 < nj j then (i + 1 - nj j, j + 1 - nj j, nj j) else bst

/-- The inner `for j in b2j.get(a[i])` loop of `find_longest_match`,
scanning `j` ascending over `[blo, bhi)`. -/
def flmScan (nj : Nat → Nat) (i blo bhi : Nat) (bst : Nat × Nat × Nat) :
    Nat × Nat × Nat :=
  (List.range' blo (bhi - blo)).foldl (flmUpd nj i) bst

/-- The outer `for i in range(alo, ahi)` loop; `n` counts the remaining
rows, so the call with `n = ahi - alo` and `i = alo` processes exactly
`alo, …, ahi-1`. -/
def flmGo (b : Str) (a : Str) (blo bhi : Nat) :
    Nat → (Nat → Nat) → (Nat × Nat × Nat) → Nat → Nat × Nat × Nat
  | 0, _, bst, _ => bst
  | n + 1, j2len, bst, i =>
    let nj := flmCol b (a.getD i 'a') blo bhi j2len
    flmGo b a blo bhi n nj (flmScan nj i blo bhi bst) (i + 1)

/-- `SequenceMatcher.find_longest_match(alo, ahi, blo, bhi)` for
`a = seq1`, `b = seq2` (no junk). -/
def findLongestMatch (a b : Str) (alo ahi blo bhi : Nat) : Nat × Nat × Nat :=
  flmGo b a blo bhi (ahi - alo) (fun _ => 0) (alo, blo, 0) alo

/-- Total size of all matching blocks (the sum that `ratio()` uses), from
the recursive decomposition of `get_matching_blocks`: take the longest
match, recurse on the pieces left and right of it.  `fuel` is a structural
bound; `matchSum` below supplies one that never runs out. -/
def matchSumF (a b : Str) : Nat → Nat → Nat → Nat → Nat → Nat
  | 0, _, _, _, _ => 0
  | fuel + 1, alo, ahi, blo, bhi =>
    let r := findLongestMatch a b alo ahi blo bhi
    if 0 < r.2.2 then
      r.2.2 + matchSumF a b fuel alo r.1 blo r.2.1 +
        matchSumF a b fuel (r.1 + r.2.2) ahi (r.2.1 + r.2.2) bhi
    else 0

/-- `sum(k for (i, j, k) in get_matching_blocks())` over the window
`[alo, ahi) × [blo, bhi)`. -/
def matchSum (a b : Str) (alo ahi blo bhi : Nat) : Nat :=
  matchSumF a b ((ahi - alo) + (bhi - blo) + 1) alo ahi blo bhi

/-- `SequenceMatcher(None, x, w).ratio()` as an exact fraction
`(numerator, denominator)`; CPython returns `1.0` when both strings are
empty. -/
def simPair (x w : Str) : Nat × Nat :=
  if x.length + w.length = 0 then (2, 2)
  else (2 * matchSum x w 0 x.length 0 w.length, x.length + w.length)

/-- The same ratio as a rational number, for specification statements. -/
def ratioQ (x w : Str) : ℚ :=
  if x.length + w.length = 0 then 1
  else (2 * matchSum x w 0 x.length 0 w.length : ℚ) / (x.length + w.length : ℚ)

/-- `ratio() >= cutoff` for a cutoff `n/d`, by cross-multiplication. -/
def ratioGeB (p : Nat × Nat) (n d : Nat) : Bool := decide (n * p.2 ≤ d * p.1)

/-- Python `<` on the pairs `(ratio, string)` that
`difflib.get_close_matches` hands to `heapq.nlargest`: compare ratios
first, tie-break on the string itself. -/
def pyPairLtB (x y : (Nat × Nat) × Str) : Bool :=
  decide (x.1.1 * y.1.2 < y.1.1 * x.1.2) ||
    (decide (x.1.1 * y.1.2 = y.1.1 * x.1.2) && charListLt x.2 y.2)

/-- One step of Python's `max` (used by `heapq.nlargest(1, …)`): replace
the current maximum only on strict improvement, so the first of equals
wins. -/
def pickStep (best : Option ((Nat × Nat) × Str)) (p : (Nat × Nat) × Str) :
    Option ((Nat × Nat) × Str) :=
  match best with
  | none => some p
  | some b => if pyPairLtB b p then some p else some b

/-- `max(iterable)` over scored candidates (`heapq.nlargest(1, result)`). -/
def pickMax (l : List ((Nat × Nat) × Str)) : Option ((Nat × Nat) × Str) :=
  l.foldl pickStep none

/-- The filtering pass of `get_close_matches`: keep `(ratio, x)` for each
candidate whose ratio against `word` meets the cutoff `n/d`.  (CPython
also pre-filters with `real_quick_ratio`/`quick_ratio`; both are upper
bounds of `ratio`, so the conjunction is equivalent to `ratio >= cutoff`.) -/
def scoredOf (word : Str) (l : List Str) (n d : Nat) : List ((Nat × Nat) × Str) :=
  l.filterMap fun x =>
    if ratioGeB (simPair x word) n d then some (simPair x word, x) else none

/-- `difflib.get_close_matches(word, possibilities, n=1, cutoff=n/d)`,
returning the single best match if any candidate meets the cutoff. -/
def closeMatches1 (word : Str) (l : List Str) (n d : Nat) : Option Str :=
  (pickMax (scoredOf word l n d)).map Prod.snd

/-!  ## Association lists: Python `dict` with insertion semantics

`d[k] = v` updates the value in place when the key exists (keeping its
position) and appends otherwise; `list(d.keys())` is the key list in
insertion order. -/

/-- Python `d[k] = v`. -/
def alInsert (m : List (Str × α)) (k : Str) (v : α) : List (Str × α) :=
  if m.any (fun p => p.1 == k) then
    m.map fun p => if p.1 = k then (k, v) else p
  else m ++ [(k, v)]

/-- Python `d[k]` / `d.get(k)`. -/
def alLookup (m : List (Str × α)) (k : Str) : Option α :=
  match m with
  | [] => none
  | p :: rest => if p.1 = k then some p.2 else alLookup rest k

/-- Python `list(d.keys())`. -/
def alKeys (m : List (Str × α)) : List Str := m.map Prod.fst

/-!  ## The source functions of `WebScrapping.py` -/

/-- `slugify(text) = text.lower().replace(" ", "-")` (ASCII lowering; the
queries and slugs the service handles are ASCII). -/
def slugify (text : Str) : Str :=
  (text.map Char.toLower).map fun c => if c == ' ' then '-' else c

/-- Helper for `urlPath`: the suffix after the first `"://"`. -/
def afterScheme : Str → Str
  | [] => []
  | x :: xs => if startsWithL "://".data (x :: xs) then xs.drop 2 else afterScheme xs

/-- `urllib.parse.urlparse(url).path`, modelled for the URLs the service
meets: for `scheme://netloc/path?query#fragment` drop the scheme marker
and the network location and keep everything up to the query/fragment;
a string without `"://"` is all path (empty netloc). -/
def urlPath (url : Str) : Str :=
  let tail :=
    if containsSub "://".data url then
      (afterScheme url).dropWhile fun c => !(c == '/')
    else url
  tail.takeWhile fun c => !(c == '?') && !(c == '#')

/-- The slug computation of `run_blog_search` (lines 166–173) for one URL:
`path_parts = urlparse(url).path.split("/")`; if there are at least two
parts, take the last part — or the second-to-last when the last is empty
(trailing slash) — and keep it only if it contains a hyphen.  (The
`try/except` guard around this block is dead for string inputs: none of
the operations raise.) -/
def pySlug (url : Str) : Str :=
  if (splitChar '/' (urlPath url)).getLastD [] = [] then
    (splitChar '/' (urlPath url)).getD ((splitChar '/' (urlPath url)).length - 2) []
  else (splitChar '/' (urlPath url)).getLastD []

/-- The hyphen filter around `pySlug`: the optional slug entry this URL
contributes to `slug_url_map`. -/
def slugOf (url : Str) : Option Str :=
  if 2 ≤ (splitChar '/' (urlPath url)).length then
    if (pySlug url).any (fun c => c == '-') then some (pySlug url) else none
  else none

/-- The `slug_url_map` built by `run_blog_search` (lines 164–173). -/
def slugUrlMap (urls : List Str) : List (Str × Str) :=
  urls.foldl
    (fun m url =>
      match slugOf url with
      | some slug => alInsert m slug url
      | none => m)
    []

/-- The `title_url_map` built by `run_blog_search` (lines 153–160) from
the per-URL results of `get_title_from_url` (modelled by the oracle
`titleOf`; the URL component of the returned tuple is the input URL). -/
def titleUrlMap (titleOf : Str → Option Str) (urls : List Str) : List (Str × Str) :=
  (urls.map fun url => (titleOf url).map fun t => (t, url)).foldl
    (fun m r =>
      match r with
      | some (title, url) => alInsert m title url
      | none => m)
    []

/-- Lines 176–177: `get_close_matches(query_slug, slugs, n=1, cutoff=0.5)`. -/
def slugMatch (urls : List Str) (query : Str) : Option Str :=
  closeMatches1 (slugify query) (alKeys (slugUrlMap urls)) 1 2

/-- The matching phase of `run_blog_search` (lines 162–194): the slug
branch with its fresh title resolution and `"Matched via URL: <slug>"`
fallback, else the title branch with `cutoff=0.6`, else no match. -/
def matchPhase (titleOf : Str → Option Str) (urls : List Str) (query : Str) :
    Option (Str × Str) :=
  match slugMatch urls query with
  | some bestSlug =>
    let matchUrl := (alLookup (slugUrlMap urls) bestSlug).getD []
    let matchTitle :=
      match titleOf matchUrl with
      | some t => t
      | none => "Matched via URL: ".data ++ bestSlug
    some (matchTitle, matchUrl)
  | none =>
    match closeMatches1 query (alKeys (titleUrlMap titleOf urls)) 3 5 with
    | none => none
    | some bestTitle => some (bestTitle, (alLookup (titleUrlMap titleOf urls) bestTitle).getD [])

/-- One text block of the matched page, as the source consumes it: a
`p`/`h2`/`h3`/`li` element `b` of the main container, carrying
`b.get_text(strip=True)` and `clean_html(str(b))` (the BeautifulSoup
parsing and tag stripping are the oracle part). -/
structure Block where
  textStrip : Str
  cleaned : Str
deriving DecidableEq

/-- A fetched and parsed page, restricted to what the source reads:
the `div.elementor-widget-container` selection, the `body` fallback, and
the `src` attribute of each `img` element in document order (`none` for a
missing attribute; CPython also skips an empty `src`, which `imageUrls`
checks separately). -/
structure Page where
  widgetContainer : Option (List Block)
  body : Option (List Block)
  imgSrcs : List (Option Str)
deriving DecidableEq

/-- `extract_blog_content(soup)` (lines 131–137): pick the container (or
`body`), keep the blocks with non-empty stripped text, join their cleaned
text with newlines, and strip the result.  Returns `none` when neither
container exists. -/
def extractBlogContent (p : Page) : Option Str :=
  match p.widgetContainer.orElse (fun _ => p.body) with
  | none => none
  | some blocks =>
    some (stripL (joinNl ((blocks.filter fun b => !(b.textStrip == [])).map Block.cleaned)))

/-- Lines 208–214: `for img in images[:3]: src = img.get("src"); if src:
image_urls.append(urljoin(match_url, src))`.  `resolve` is
`urljoin(match_url, ·)`. -/
def imageUrls (resolve : Str → Str) (p : Page) : List Str :=
  ((p.imgSrcs.take 3).filterMap fun o =>
    match o with
    | some src => if src == [] then none else some src
    | none => none).map resolve

/-- The value `run_blog_search` returns: one of its four `return`
statements (two error shapes share a constructor). -/
inductive Res where
  | error (msg : Str)
  | message (msg : Str)
  | success (title url preview fullContent : Str) (imageUrls : List Str)
deriving DecidableEq

/-- The oracle environment: `get_title_from_url` (title component),
`fetch_blog_soup`, and `urljoin` for resolving an image `src` against a
page URL. -/
structure Env where
  titleOf : Str → Option Str
  fetchPage : Str → Option Page
  resolve : Str → Str → Str

/-- Lines 196–225 of `run_blog_search`: fetch the matched page, extract
content (both a missing container and empty text are errors, Python's
`if not content`), and assemble the success payload with
`content[:300]` as preview and up to three image URLs. -/
def finishFetch (env : Env) (title url : Str) : Res :=
  match env.fetchPage url with
  | none => Res.error ("Failed to fetch blog HTML for ".data ++ url ++ ".".data)
  | some page =>
    match extractBlogContent page with
    | none => Res.error "Failed to extract blog content.".data
    | some content =>
      if content = [] then Res.error "Failed to extract blog content.".data
      else
        Res.success title url (content.take 300) content (imageUrls (env.resolve url) page)

/-- `run_blog_search(search_query)` (lines 145–225) given the crawled URL
list: fail fast on an empty list, otherwise run the matching phase and
fetch the match. -/
def runBlogSearchOn (env : Env) (urls : List Str) (query : Str) : Res :=
  if urls.isEmpty then Res.error "No blog URLs found from sitemap.".data
  else
    match matchPhase env.titleOf urls query with
    | none => Res.message "No matching blog found.".data
    | some (title, url) => finishFetch env title url

/-- The crawl oracle: the `<loc>` entries of the root sitemap (`none`
when the fetch raises, line 76–78 returns `[]`), and per child sitemap the
`<loc>` entries of its content (`none` when `fetch_sitemap_content`
returned `None` or empty bytes, both falsy at line 89). -/
structure CrawlEnv where
  rootLocs : Option (List Str)
  childLocs : Str → Option (List Str)

/-- `get_sitemap_urls()` (lines 70–78). -/
def getSitemapUrls (cenv : CrawlEnv) : List Str := cenv.rootLocs.getD []

/-- The keyword filter of `get_all_blog_page_urls` (line 93). -/
def blogKeywords : List Str :=
  ["blog".data, "signature".data, "salesforce".data, "field".data,
    "service".data, "dispatcher".data]

/-- `get_all_blog_page_urls()` (lines 81–95): for every child sitemap,
collect the `<loc>` URLs whose lowercased text contains a keyword.  The
thread pool's `as_completed` completion order is scheduling-dependent; it
is modelled as submission order (the claims under verification do not
depend on cross-sitemap order). -/
def getAllBlogPageUrls (cenv : CrawlEnv) : List Str :=
  (getSitemapUrls cenv).foldl
    (fun acc sitemapUrl =>
      match cenv.childLocs sitemapUrl with
      | none => acc
      | some locs =>
        acc ++ locs.filter fun loc =>
          blogKeywords.any fun kw => containsSub kw (loc.map Char.toLower))
    []

/-- The full `run_blog_search`, crawling included. -/
def runBlogSearch (cenv : CrawlEnv) (env : Env) (query : Str) : Res :=
  runBlogSearchOn env (getAllBlogPageUrls cenv) query

/-- A JSON-ish dict value: the dicts `run_blog_search` returns hold
strings and one list of strings. -/
inductive RVal where
  | s (v : Str)
  | l (v : List Str)
deriving DecidableEq

/-- The literal dict each `return` of `run_blog_search` builds. -/
def dictOf : Res → List (Str × RVal)
  | Res.error e => [("error".data, RVal.s e)]
  | Res.message m => [("message".data, RVal.s m)]
  | Res.success t u pv fc im =>
    [("title".data, RVal.s t), ("url".data, RVal.s u),
      ("content_preview".data, RVal.s pv), ("full_content".data, RVal.s fc),
      ("image_urls".data, RVal.l im)]

/-- The response model (lines 33–40): every field is `Optional` with
pydantic default `None` (`image_urls` defaults to `[]`). -/
structure BlogSearchResult where
  title : Option Str
  url : Option Str
  contentPreview : Option Str
  fullContent : Option Str
  imageUrlList : List Str
  message : Option Str
  error : Option Str
deriving DecidableEq

/-- What the endpoint sends: a 200 with a `BlogSearchResult`, or an
`HTTPException(status_code, detail)`. -/
inductive Response where
  | ok (r : BlogSearchResult)
  | httpError (status : Nat) (detail : Str)
deriving DecidableEq

/-- String field access on a result dict. -/
def rvStr (o : Option RVal) : Option Str :=
  match o with
  | some (RVal.s v) => some v
  | _ => none

/-- List field access on a result dict. -/
def rvList (o : Option RVal) : List Str :=
  match o with
  | some (RVal.l v) => v
  | _ => []

/-- `search_blog_endpoint` (lines 42–60) applied to the dict returned by
`run_blog_search`: `if "error" in result: raise HTTPException(500, …)`;
`if "message" in result: return BlogSearchResult(message=…)`; otherwise
`BlogSearchResult(**result)`. -/
def endpointOfDict (d : List (Str × RVal)) : Response :=
  if d.any (fun p => p.1 == "error".data) then
    Response.httpError 500 ((rvStr (alLookup d "error".data)).getD [])
  else if d.any (fun p => p.1 == "message".data) then
    Response.ok
      { title := none, url := none, contentPreview := none, fullContent := none,
        imageUrlList := [], message := rvStr (alLookup d "message".data), error := none }
  else
    Response.ok
      { title := rvStr (alLookup d "title".data)
        url := rvStr (alLookup d "url".data)
        contentPreview := rvStr (alLookup d "content_preview".data)
        fullContent := rvStr (alLookup d "full_content".data)
        imageUrlList := rvList (alLookup d "image_urls".data)
        message := none, error := none }

/-- The endpoint on a crawled candidate list. -/
def searchBlogEndpointOn (env : Env) (urls : List Str) (query : Str) : Response :=
  endpointOfDict (dictOf (runBlogSearchOn env urls query))

/-- The whole request path: crawl, search, map to an HTTP response. -/
def searchBlogEndpoint (cenv : CrawlEnv) (env : Env) (query : Str) : Response :=
  endpointOfDict (dictOf (runBlogSearch cenv env query))

/-!  ## Specification-side definitions

These follow the wording of the claims being checked (not the source), so
that refinement statements can compare them with the code-derived
definitions above. -/

/-- The claim's notion of slug: the last non-empty path segment of the
URL. -/
def specLastNonEmptySegment (url : Str) : Option Str :=
  ((splitChar '/' (urlPath url)).filter fun s => !(s == [])).getLast?

/-- The claim's phrasing of image collection: resolve the first three
`src` attributes present among all of the document's image elements. -/
def specImageUrls (resolve : Str → Str) (p : Page) : List Str :=
  ((p.imgSrcs.filterMap fun o =>
    match o with
    | some src => if src == [] then none else some src
    | none => none).take 3).map resolve

/-- The amended phrasing of image collection: walk the first three image
elements only, resolving the `src` of those that have one. -/
def specImageUrlsAmended (resolve : Str → Str) (p : Page) : List Str :=
  (p.imgSrcs.take 3).foldr
    (fun o acc =>
      match o with
      | some src => if src == [] then acc else resolve src :: acc
      | none => acc) []

/-!  ## Invariants of the `find_longest_match` dynamic program -/

/-- Invariant of the `j2len` table after the rows `alo, …, i-1` have been
scanned: a non-zero entry at `j` is a diagonal run of matches of that
length ending at `(i-1, j)`, lying inside the window. -/
def J2Inv (a b : Str) (alo blo bhi i : Nat) (f : Nat → Nat) : Prop :=
  ∀ j, f j ≠ 0 →
    blo ≤ j ∧ j < bhi ∧ blo + f j ≤ j + 1 ∧ alo + f j ≤ i ∧
      ∀ t, t < f j → a.getD (i - 1 - t) 'a' = b.getD (j - t) 'a'

/-- Invariant of the running best block: when non-trivial it is a genuine
matching block inside the window `[alo, ahi) × [blo, bhi)`. -/
def BestInv (a b : Str) (alo ahi blo bhi : Nat) (r : Nat × Nat × Nat) : Prop :=
  0 < r.2.2 →
    alo ≤ r.1 ∧ r.1 + r.2.2 ≤ ahi ∧ blo ≤ r.2.1 ∧ r.2.1 + r.2.2 ≤ bhi ∧
      ∀ t, t < r.2.2 → a.getD (r.1 + t) 'a' = b.getD (r.2.1 + t) 'a'

/-!  ## Lemmas: association lists -/

theorem alLookup_map_upd (m : List (Str × α)) (k k' : Str) (v : α) (h : k' ≠ k) :
    alLookup (m.map fun p => if p.1 = k then (k, v) else p) k' = alLookup m k' := by
  induction m with
  | nil => rfl
  | cons p rest ih =>
    simp only [List.map_cons, alLookup]
    by_cases hp : p.1 = k
    · rw [if_pos hp]
      have e1 : ¬ ((k, v).1 = k') := fun e => h e.symm
      have e2 : ¬ (p.1 = k') := by rw [hp]; exact fun e => h e.symm
      rw [if_neg e1, if_neg e2]
      exact ih
    · rw [if_neg hp]
      by_cases hq : p.1 = k'
      · rw [if_pos hq, if_pos hq]
      · rw [if_neg hq, if_neg hq]
        exact ih

theorem alLookup_map_upd_self (m : List (Str × α)) (k : Str) (v : α) :
    alLookup (m.map fun p => if p.1 = k then (k, v) else p) k =
      (alLookup m k).map fun _ => v := by
  induction m with
  | nil => rfl
  | cons p rest ih =>
    simp only [List.map_cons, alLookup]
    by_cases hp : p.1 = k
    · rw [if_pos hp]
      have e1 : (k, v).1 = k := rfl
      rw [if_pos e1, if_pos hp]
      rfl
    · rw [if_neg hp, if_neg hp, if_neg hp]
      exact ih

theorem alLookup_append_single (m : List (Str × α)) (k k' : Str) (v : α) (h : k' ≠ k) :
    alLookup (m ++ [(k, v)]) k' = alLookup m k' := by
  induction m with
  | nil =>
    simp only [List.nil_append, alLookup]
    rw [if_neg (fun e => h e.symm)]
  | cons p rest ih =>
    simp only [List.cons_append, alLookup]
    by_cases hq : p.1 = k'
    · rw [if_pos hq, if_pos hq]
    · rw [if_neg hq, if_neg hq]
      exact ih

theorem alLookup_append_single_self (m : List (Str × α)) (k : Str) (v : α)
    (h : ∀ p ∈ m, ¬ p.1 = k) :
    alLookup (m ++ [(k, v)]) k = some v := by
  induction m with
  | nil => simp [alLookup]
  | cons p rest ih =>
    simp only [List.cons_append, alLookup]
    rw [if_neg (h p (List.mem_cons_self p rest))]
    exact ih fun q hq => h q (List.mem_cons_of_mem p hq)

theorem any_eq_true_lookup (m : List (Str × α)) (k : Str)
    (h : m.any (fun p => p.1 == k) = true) : ∃ v, alLookup m k = some v := by
  induction m with
  | nil => simp at h
  | cons p rest ih =>
    simp only [alLookup]
    by_cases hp : p.1 = k
    · rw [if_pos hp]
      exact ⟨p.2, rfl⟩
    · rw [if_neg hp]
      apply ih
      simp only [List.any_cons, Bool.or_eq_true, beq_iff_eq] at h
      rcases h with h | h
      · exact absurd h hp
      · exact h

theorem alLookup_alInsert_self (m : List (Str × α)) (k : Str) (v : α) :
    alLookup (alInsert m k v) k = some v := by
  unfold alInsert
  by_cases hmem : m.any (fun p => p.1 == k) = true
  · rw [if_pos hmem]
    obtain ⟨v', hv'⟩ := any_eq_true_lookup m k hmem
    rw [alLookup_map_upd_self, hv']
    rfl
  · rw [if_neg hmem]
    simp only [List.any_eq_true, beq_iff_eq, not_exists, not_and] at hmem
    exact alLookup_append_single_self m k v fun p hp => hmem p hp

theorem alLookup_alInsert_ne (m : List (Str × α)) (k k' : Str) (v : α) (h : k' ≠ k) :
    alLookup (alInsert m k v) k' = alLookup m k' := by
  unfold alInsert
  by_cases hmem : m.any (fun p => p.1 == k) = true
  · rw [if_pos hmem]
    exact alLookup_map_upd m k k' v h
  · rw [if_neg hmem]
    exact alLookup_append_single m k k' v h

theorem alLookup_some_mem (m : List (Str × α)) (k : Str) (v : α)
    (h : alLookup m k = some v) : k ∈ alKeys m := by
  induction m with
  | nil => exact Option.noConfusion h
  | cons p rest ih =>
    simp only [alLookup] at h
    by_cases hp : p.1 = k
    · simp only [alKeys, List.map_cons, List.mem_cons]
      exact Or.inl hp.symm
    · rw [if_neg hp] at h
      simp only [alKeys, List.map_cons, List.mem_cons]
      exact Or.inr (ih h)

/-!  ## Lemmas: the Python pair order and `max` -/

theorem charListLt_irrefl : ∀ l : Str, charListLt l l = false := by
  intro l
  induction l with
  | nil => rfl
  | cons a as ih => simp [charListLt, ih]

theorem charListLt_asymm : ∀ a b : Str, charListLt a b = true → charListLt b a = false := by
  intro a
  induction a with
  | nil =>
    intro b hb
    cases b with
    | nil => exact Bool.noConfusion hb
    | cons x xs => simp [charListLt]
  | cons p ps ih =>
    intro b hb
    cases b with
    | nil => exact Bool.noConfusion hb
    | cons x xs =>
      simp only [charListLt] at hb ⊢
      by_cases h1 : p.toNat < x.toNat
      · have h2 : ¬ x.toNat < p.toNat := by omega
        simp [h1, h2]
      · by_cases h2 : x.toNat < p.toNat
        · simp [h1, h2] at hb
        · simp only [if_neg h1, if_neg h2] at hb
          simp [h1, h2, ih xs hb]

theorem pyPairLtB_asymm (x y : (Nat × Nat) × Str) (h : pyPairLtB x y = true) :
    pyPairLtB y x = false := by
  simp only [pyPairLtB, Bool.or_eq_true, Bool.and_eq_true, decide_eq_true_eq] at h ⊢
  rcases h with h | ⟨he, hs⟩
  · simp only [Bool.or_eq_false_iff, Bool.and_eq_false_iff, decide_eq_false_iff_not]
    exact ⟨by omega, Or.inl (by omega)⟩
  · simp only [Bool.or_eq_false_iff, Bool.and_eq_false_iff, decide_eq_false_iff_not]
    exact ⟨by omega, Or.inr (charListLt_asymm _ _ hs)⟩

theorem pickMax_go (m : (Nat × Nat) × Str) :
    ∀ (l : List ((Nat × Nat) × Str)) (acc : Option ((Nat × Nat) × Str)),
      (∀ y, acc = some y → (y = m ∨ pyPairLtB y m = true)) →
      (m ∈ l ∨ acc = some m) →
      (∀ y ∈ l, y = m ∨ pyPairLtB y m = true) →
      l.foldl pickStep acc = some m := by
  intro l
  induction l with
  | nil =>
    intro acc _ hin _
    rcases hin with h | h
    · simp at h
    · simpa using h
  | cons p rest ih =>
    intro acc hacc hin hall
    simp only [List.foldl_cons]
    have hp : p = m ∨ pyPairLtB p m = true := hall p (List.mem_cons_self p rest)
    have hrest : ∀ y ∈ rest, y = m ∨ pyPairLtB y m = true :=
      fun y hy => hall y (List.mem_cons_of_mem p hy)
    have hacc' : ∀ y, pickStep acc p = some y → (y = m ∨ pyPairLtB y m = true) := by
      intro y hy
      cases acc with
      | none =>
        simp only [pickStep] at hy
        injection hy with hpy
        exact hpy ▸ hp
      | some b =>
        simp only [pickStep] at hy
        split at hy
        · injection hy with hpy
          exact hpy ▸ hp
        · injection hy with hby
          exact hby ▸ hacc b rfl
    have hin' : m ∈ rest ∨ pickStep acc p = some m := by
      by_cases hpm : p = m
      · right
        cases acc with
        | none => simp [pickStep, hpm]
        | some b =>
          rcases hacc b rfl with hb | hb
          · rw [hpm, hb]
            simp only [pickStep]
            split <;> rfl
          · rw [hpm]
            simp [pickStep, hb]
      · rcases hin with hl | hsome
        · rcases List.mem_cons.mp hl with hh | hh
          · exact absurd hh.symm hpm
          · exact Or.inl hh
        · right
          have hlt : pyPairLtB p m = true := by
            rcases hp with hh | hh
            · exact absurd hh hpm
            · exact hh
          rw [hsome]
          simp only [pickStep]
          rw [pyPairLtB_asymm p m hlt]
          simp
    exact ih (pickStep acc p) hacc' hin' hrest

theorem pickMax_eq (l : List ((Nat × Nat) × Str)) (m : (Nat × Nat) × Str)
    (hm : m ∈ l) (hall : ∀ y ∈ l, y = m ∨ pyPairLtB y m = true) :
    pickMax l = some m :=
  pickMax_go m l none (by intro y h; cases h) (Or.inl hm) hall

/-!  ## Lemmas: bounds and content of `find_longest_match` -/

theorem J2Inv_step (a b : Str) (alo blo bhi i : Nat) (f : Nat → Nat)
    (hi : alo ≤ i) (hf : J2Inv a b alo blo bhi i f) :
    J2Inv a b alo blo bhi (i + 1) (flmCol b (a.getD i 'a') blo bhi f) := by
  intro j hj
  have hcol : flmCol b (a.getD i 'a') blo bhi f j =
      if blo ≤ j ∧ j < bhi ∧ b.getD j 'a' = a.getD i 'a' then
        (if j = 0 then 0 else f (j - 1)) + 1
      else 0 := rfl
  by_cases hg : blo ≤ j ∧ j < bhi ∧ b.getD j 'a' = a.getD i 'a'
  · obtain ⟨hblo, hbhi, hchar⟩ := hg
    rw [hcol, if_pos ⟨hblo, hbhi, hchar⟩] at hj ⊢
    by_cases hj0 : j = 0
    · subst hj0
      rw [if_pos rfl]
      have hblo0 : blo = 0 := by omega
      refine ⟨hblo, hbhi, by omega, by omega, ?_⟩
      intro t ht
      have ht0 : t = 0 := by omega
      subst ht0
      have e1 : i + 1 - 1 - 0 = i := by omega
      have e2 : 0 - 0 = 0 := rfl
      rw [e1, e2]
      exact hchar.symm
    · rw [if_neg hj0] at hj ⊢
      by_cases hprev : f (j - 1) = 0
      · rw [hprev]
        refine ⟨hblo, hbhi, by omega, by omega, ?_⟩
        intro t ht
        have ht0 : t = 0 := by omega
        subst ht0
        have e1 : i + 1 - 1 - 0 = i := by omega
        have e2 : j - 0 = j := by omega
        rw [e1, e2]
        exact hchar.symm
      · obtain ⟨hb1, hb2, hb3, hb4, hchain⟩ := hf (j - 1) hprev
        refine ⟨hblo, hbhi, by omega, by omega, ?_⟩
        intro t ht
        cases t with
        | zero =>
          have e1 : i + 1 - 1 - 0 = i := by omega
          have e2 : j - 0 = j := by omega
          rw [e1, e2]
          exact hchar.symm
        | succ s =>
          have hs : s < f (j - 1) := by omega
          have e1 : i + 1 - 1 - (s + 1) = i - 1 - s := by omega
          have e2 : j - (s + 1) = j - 1 - s := by omega
          rw [e1, e2]
          exact hchain s hs
  · rw [hcol, if_neg hg] at hj
    exact absurd rfl hj

theorem flmUpd_fold_bestInv (a b : Str) (alo ahi blo bhi i : Nat) (nj : Nat → Nat)
    (hJ : J2Inv a b alo blo bhi (i + 1) nj) (hi : i < ahi) :
    ∀ (l : List Nat) (bst : Nat × Nat × Nat),
      BestInv a b alo ahi blo bhi bst →
      BestInv a b alo ahi blo bhi (l.foldl (flmUpd nj i) bst) := by
  intro l
  induction l with
  | nil => intro bst hb; exact hb
  | cons j rest ih =>
    intro bst hb
    simp only [List.foldl_cons]
    apply ih
    unfold flmUpd
    by_cases hupd : bst.2.2 < nj j
    · rw [if_pos hupd]
      intro _
      have hnz : nj j ≠ 0 := by omega
      obtain ⟨h1, h2, h3, h4, hchain⟩ := hJ j hnz
      refine ⟨?_, ?_, ?_, ?_, ?_⟩
      · show alo ≤ i + 1 - nj j
        omega
      · show (i + 1 - nj j) + nj j ≤ ahi
        omega
      · show blo ≤ j + 1 - nj j
        omega
      · show (j + 1 - nj j) + nj j ≤ bhi
        omega
      · show ∀ t, t < nj j → a.getD ((i + 1 - nj j) + t) 'a' = b.getD ((j + 1 - nj j) + t) 'a'
        intro t ht
        have hs : nj j - 1 - t < nj j := by omega
        have e1 : i + 1 - nj j + t = (i + 1) - 1 - (nj j - 1 - t) := by omega
        have e2 : j + 1 - nj j + t = j - (nj j - 1 - t) := by omega
        rw [e1, e2]
        exact hchain (nj j - 1 - t) hs
    · rw [if_neg hupd]
      exact hb

theorem flmGo_bestInv (a b : Str) (alo blo bhi : Nat) :
    ∀ (n : Nat) (f : Nat → Nat) (bst : Nat × Nat × Nat) (i : Nat),
      alo ≤ i → J2Inv a b alo blo bhi i f →
      BestInv a b alo (i + n) blo bhi bst →
      BestInv a b alo (i + n) blo bhi (flmGo b a blo bhi n f bst i) := by
  intro n
  induction n with
  | zero => intro f bst i _ _ hb; exact hb
  | succ n ih =>
    intro f bst i hi hJ hb
    simp only [flmGo]
    have hJ' := J2Inv_step a b alo blo bhi i f hi hJ
    have hscan := flmUpd_fold_bestInv a b alo (i + (n + 1)) blo bhi i
      (flmCol b (a.getD i 'a') blo bhi f) hJ' (by omega)
      (List.range' blo (bhi - blo)) bst hb
    have := ih (flmCol b (a.getD i 'a') blo bhi f)
      (flmScan (flmCol b (a.getD i 'a') blo bhi f) i blo bhi bst) (i + 1)
      (by omega) hJ' (by rw [show i + 1 + n = i + (n + 1) by omega]; exact hscan)
    rw [show i + 1 + n = i + (n + 1) by omega] at this
    exact this

theorem findLongestMatch_inv (a b : Str) (alo ahi blo bhi : Nat) :
    BestInv a b alo ahi blo bhi (findLongestMatch a b alo ahi blo bhi) := by
  unfold findLongestMatch
  by_cases hle : alo ≤ ahi
  · have h := flmGo_bestInv a b alo blo bhi (ahi - alo) (fun _ => 0) (alo, blo, 0) alo
      (le_refl alo) (fun j hj => absurd rfl hj) (fun h0 => absurd h0 (by simp))
    rw [show alo + (ahi - alo) = ahi by omega] at h
    exact h
  · rw [show ahi - alo = 0 by omega]
    simp only [flmGo]
    intro h0
    exact absurd h0 (by simp)

/-!  ## Lemmas: `matchSum` -/

theorem matchSumF_stable (a b : Str) :
    ∀ (f1 f2 alo ahi blo bhi : Nat),
      (ahi - alo) + (bhi - blo) < f1 → (ahi - alo) + (bhi - blo) < f2 →
      matchSumF a b f1 alo ahi blo bhi = matchSumF a b f2 alo ahi blo bhi := by
  intro f1
  induction f1 with
  | zero => intro f2 alo ahi blo bhi h1 _; omega
  | succ n ih =>
    intro f2 alo ahi blo bhi h1 h2
    cases f2 with
    | zero => omega
    | succ m =>
      simp only [matchSumF]
      by_cases hk : 0 < (findLongestMatch a b alo ahi blo bhi).2.2
      · rw [if_pos hk, if_pos hk]
        obtain ⟨hb1, hb2, hb3, hb4, _⟩ := findLongestMatch_inv a b alo ahi blo bhi hk
        have hm1 : ((findLongestMatch a b alo ahi blo bhi).1 - alo) +
            ((findLongestMatch a b alo ahi blo bhi).2.1 - blo) < n := by omega
        have hm1' : ((findLongestMatch a b alo ahi blo bhi).1 - alo) +
            ((findLongestMatch a b alo ahi blo bhi).2.1 - blo) < m := by omega
        have hm2 : (ahi - ((findLongestMatch a b alo ahi blo bhi).1 +
              (findLongestMatch a b alo ahi blo bhi).2.2)) +
            (bhi - ((findLongestMatch a b alo ahi blo bhi).2.1 +
              (findLongestMatch a b alo ahi blo bhi).2.2)) < n := by omega
        have hm2' : (ahi - ((findLongestMatch a b alo ahi blo bhi).1 +
              (findLongestMatch a b alo ahi blo bhi).2.2)) +
            (bhi - ((findLongestMatch a b alo ahi blo bhi).2.1 +
              (findLongestMatch a b alo ahi blo bhi).2.2)) < m := by omega
        rw [ih m alo (findLongestMatch a b alo ahi blo bhi).1 blo
              (findLongestMatch a b alo ahi blo bhi).2.1 hm1 hm1',
            ih m ((findLongestMatch a b alo ahi blo bhi).1 +
                (findLongestMatch a b alo ahi blo bhi).2.2) ahi
              ((findLongestMatch a b alo ahi blo bhi).2.1 +
                (findLongestMatch a b alo ahi blo bhi).2.2) bhi hm2 hm2']
      · rw [if_neg hk, if_neg hk]

theorem matchSum_eq (a b : Str) (alo ahi blo bhi : Nat) :
    matchSum a b alo ahi blo bhi =
      if 0 < (findLongestMatch a b alo ahi blo bhi).2.2 then
        (findLongestMatch a b alo ahi blo bhi).2.2 +
          matchSum a b alo (findLongestMatch a b alo ahi blo bhi).1 blo
            (findLongestMatch a b alo ahi blo bhi).2.1 +
          matchSum a b
            ((findLongestMatch a b alo ahi blo bhi).1 +
              (findLongestMatch a b alo ahi blo bhi).2.2) ahi
            ((findLongestMatch a b alo ahi blo bhi).2.1 +
              (findLongestMatch a b alo ahi blo bhi).2.2) bhi
      else 0 := by
  have hstep : matchSum a b alo ahi blo bhi =
      if 0 < (findLongestMatch a b alo ahi blo bhi).2.2 then
        (findLongestMatch a b alo ahi blo bhi).2.2 +
          matchSumF a b ((ahi - alo) + (bhi - blo)) alo
            (findLongestMatch a b alo ahi blo bhi).1 blo
            (findLongestMatch a b alo ahi blo bhi).2.1 +
          matchSumF a b ((ahi - alo) + (bhi - blo))
            ((findLongestMatch a b alo ahi blo bhi).1 +
              (findLongestMatch a b alo ahi blo bhi).2.2) ahi
            ((findLongestMatch a b alo ahi blo bhi).2.1 +
              (findLongestMatch a b alo ahi blo bhi).2.2) bhi
      else 0 := rfl
  rw [hstep]
  by_cases hk : 0 < (findLongestMatch a b alo ahi blo bhi).2.2
  · rw [if_pos hk, if_pos hk]
    obtain ⟨hb1, hb2, hb3, hb4, _⟩ := findLongestMatch_inv a b alo ahi blo bhi hk
    have hm1 : ((findLongestMatch a b alo ahi blo bhi).1 - alo) +
        ((findLongestMatch a b alo ahi blo bhi).2.1 - blo) <
          (ahi - alo) + (bhi - blo) := by omega
    have hm2 : (ahi - ((findLongestMatch a b alo ahi blo bhi).1 +
          (findLongestMatch a b alo ahi blo bhi).2.2)) +
        (bhi - ((findLongestMatch a b alo ahi blo bhi).2.1 +
          (findLongestMatch a b alo ahi blo bhi).2.2)) <
          (ahi - alo) + (bhi - blo) := by omega
    rw [matchSumF_stable a b ((ahi - alo) + (bhi - blo))
          ((((findLongestMatch a b alo ahi blo bhi).1 - alo) +
            ((findLongestMatch a b alo ahi blo bhi).2.1 - blo)) + 1) alo
          (findLongestMatch a b alo ahi blo bhi).1 blo
          (findLongestMatch a b alo ahi blo bhi).2.1 hm1 (by omega),
        matchSumF_stable a b ((ahi - alo) + (bhi - blo))
          (((ahi - ((findLongestMatch a b alo ahi blo bhi).1 +
              (findLongestMatch a b alo ahi blo bhi).2.2)) +
            (bhi - ((findLongestMatch a b alo ahi blo bhi).2.1 +
              (findLongestMatch a b alo ahi blo bhi).2.2))) + 1)
          ((findLongestMatch a b alo ahi blo bhi).1 +
            (findLongestMatch a b alo ahi blo bhi).2.2) ahi
          ((findLongestMatch a b alo ahi blo bhi).2.1 +
            (findLongestMatch a b alo ahi blo bhi).2.2) bhi hm2 (by omega)]
    rfl
  · rw [if_neg hk, if_neg hk]

theorem matchSum_empty (a b : Str) (alo ahi blo bhi : Nat) (h : ahi ≤ alo) :
    matchSum a b alo ahi blo bhi = 0 := by
  have hflm : findLongestMatch a b alo ahi blo bhi = (alo, blo, 0) := by
    unfold findLongestMatch
    rw [show ahi - alo = 0 by omega]
    rfl
  rw [matchSum_eq, hflm]
  rfl

theorem matchSum_le (a b : Str) :
    ∀ (meas alo ahi blo bhi : Nat), (ahi - alo) + (bhi - blo) = meas →
      matchSum a b alo ahi blo bhi ≤ ahi - alo ∧
        matchSum a b alo ahi blo bhi ≤ bhi - blo := by
  intro meas
  induction meas using Nat.strong_induction_on with
  | _ meas ih =>
    intro alo ahi blo bhi hmeas
    rw [matchSum_eq]
    by_cases hk : 0 < (findLongestMatch a b alo ahi blo bhi).2.2
    · rw [if_pos hk]
      obtain ⟨hb1, hb2, hb3, hb4, _⟩ := findLongestMatch_inv a b alo ahi blo bhi hk
      have hm1 : ((findLongestMatch a b alo ahi blo bhi).1 - alo) +
          ((findLongestMatch a b alo ahi blo bhi).2.1 - blo) < meas := by omega
      have hm2 : (ahi - ((findLongestMatch a b alo ahi blo bhi).1 +
            (findLongestMatch a b alo ahi blo bhi).2.2)) +
          (bhi - ((findLongestMatch a b alo ahi blo bhi).2.1 +
            (findLongestMatch a b alo ahi blo bhi).2.2)) < meas := by omega
      have hl := ih _ hm1 alo (findLongestMatch a b alo ahi blo bhi).1 blo
        (findLongestMatch a b alo ahi blo bhi).2.1 rfl
      have hr := ih _ hm2 ((findLongestMatch a b alo ahi blo bhi).1 +
          (findLongestMatch a b alo ahi blo bhi).2.2) ahi
        ((findLongestMatch a b alo ahi blo bhi).2.1 +
          (findLongestMatch a b alo ahi blo bhi).2.2) bhi rfl
      omega
    · rw [if_neg hk]
      omega

theorem matchSum_full (a b : Str) :
    ∀ (meas alo ahi blo bhi : Nat), (ahi - alo) + (bhi - blo) = meas →
      matchSum a b alo ahi blo bhi = ahi - alo →
      matchSum a b alo ahi blo bhi = bhi - blo →
      ahi - alo = bhi - blo ∧
        ∀ t, t < ahi - alo → a.getD (alo + t) 'a' = b.getD (blo + t) 'a' := by
  intro meas
  induction meas using Nat.strong_induction_on with
  | _ meas ih =>
    intro alo ahi blo bhi hmeas ha hb
    rw [matchSum_eq] at ha hb
    by_cases hk : 0 < (findLongestMatch a b alo ahi blo bhi).2.2
    · rw [if_pos hk] at ha hb
      obtain ⟨hb1, hb2, hb3, hb4, hblock⟩ := findLongestMatch_inv a b alo ahi blo bhi hk
      have hlle := matchSum_le a b (((findLongestMatch a b alo ahi blo bhi).1 - alo) +
          ((findLongestMatch a b alo ahi blo bhi).2.1 - blo))
        alo (findLongestMatch a b alo ahi blo bhi).1 blo
        (findLongestMatch a b alo ahi blo bhi).2.1 rfl
      have hrle := matchSum_le a b ((ahi - ((findLongestMatch a b alo ahi blo bhi).1 +
            (findLongestMatch a b alo ahi blo bhi).2.2)) +
          (bhi - ((findLongestMatch a b alo ahi blo bhi).2.1 +
            (findLongestMatch a b alo ahi blo bhi).2.2)))
        ((findLongestMatch a b alo ahi blo bhi).1 +
          (findLongestMatch a b alo ahi blo bhi).2.2) ahi
        ((findLongestMatch a b alo ahi blo bhi).2.1 +
          (findLongestMatch a b alo ahi blo bhi).2.2) bhi rfl
      have hm1 : ((findLongestMatch a b alo ahi blo bhi).1 - alo) +
          ((findLongestMatch a b alo ahi blo bhi).2.1 - blo) < meas := by omega
      have hm2 : (ahi - ((findLongestMatch a b alo ahi blo bhi).1 +
            (findLongestMatch a b alo ahi blo bhi).2.2)) +
          (bhi - ((findLongestMatch a b alo ahi blo bhi).2.1 +
            (findLongestMatch a b alo ahi blo bhi).2.2)) < meas := by omega
      have hL := ih _ hm1 alo (findLongestMatch a b alo ahi blo bhi).1 blo
        (findLongestMatch a b alo ahi blo bhi).2.1 rfl (by omega) (by omega)
      have hR := ih _ hm2 ((findLongestMatch a b alo ahi blo bhi).1 +
          (findLongestMatch a b alo ahi blo bhi).2.2) ahi
        ((findLongestMatch a b alo ahi blo bhi).2.1 +
          (findLongestMatch a b alo ahi blo bhi).2.2) bhi rfl (by omega) (by omega)
      refine ⟨by omega, ?_⟩
      intro t ht
      obtain ⟨hLlen, hLchain⟩ := hL
      obtain ⟨hRlen, hRchain⟩ := hR
      by_cases h1 : t < (findLongestMatch a b alo ahi blo bhi).1 - alo
      · exact hLchain t h1
      · by_cases h2 : t < ((findLongestMatch a b alo ahi blo bhi).1 - alo) +
            (findLongestMatch a b alo ahi blo bhi).2.2
        · have e1 : alo + t = (findLongestMatch a b alo ahi blo bhi).1 +
              (t - ((findLongestMatch a b alo ahi blo bhi).1 - alo)) := by omega
          have e2 : blo + t = (findLongestMatch a b alo ahi blo bhi).2.1 +
              (t - ((findLongestMatch a b alo ahi blo bhi).1 - alo)) := by omega
          rw [e1, e2]
          exact hblock _ (by omega)
        · have e1 : alo + t = ((findLongestMatch a b alo ahi blo bhi).1 +
              (findLongestMatch a b alo ahi blo bhi).2.2) +
              (t - (((findLongestMatch a b alo ahi blo bhi).1 - alo) +
                (findLongestMatch a b alo ahi blo bhi).2.2)) := by omega
          have e2 : blo + t = ((findLongestMatch a b alo ahi blo bhi).2.1 +
              (findLongestMatch a b alo ahi blo bhi).2.2) +
              (t - (((findLongestMatch a b alo ahi blo bhi).1 - alo) +
                (findLongestMatch a b alo ahi blo bhi).2.2)) := by omega
          rw [e1, e2]
          exact hRchain _ (by omega)
    · rw [if_neg hk] at ha hb
      refine ⟨by omega, ?_⟩
      intro t ht
      omega

/-!  ## Lemmas: the diagonal (equal strings find the full match) -/

theorem flmUpd_fold_noupd (nj : Nat → Nat) (i : Nat) :
    ∀ (l : List Nat) (bst : Nat × Nat × Nat), (∀ j ∈ l, nj j ≤ bst.2.2) →
      l.foldl (flmUpd nj i) bst = bst := by
  intro l
  induction l with
  | nil => intro bst _; rfl
  | cons j rest ih =>
    intro bst hb
    simp only [List.foldl_cons]
    have hstep : flmUpd nj i bst j = bst := by
      unfold flmUpd
      rw [if_neg (by have := hb j (List.mem_cons_self j rest); omega)]
    rw [hstep]
    exact ih bst fun j' hj' => hb j' (List.mem_cons_of_mem j hj')

theorem flmScan_diag (nj : Nat → Nat) (i len : Nat) (hi : i < len)
    (hni : nj i = i + 1) (hle : ∀ j, nj j ≤ i + 1) (hlt : ∀ j, j < i → nj j ≤ i) :
    flmScan nj i 0 len (0, 0, i) = (0, 0, i + 1) := by
  unfold flmScan
  have hsplit : List.range' 0 (len - 0) = List.range' 0 i ++ List.range' i (len - i) := by
    have happ := List.range'_append 0 i (len - i) 1
    simp only [Nat.one_mul, Nat.zero_add] at happ
    rw [show len - i + i = len by omega] at happ
    exact happ.symm
  rw [hsplit, List.foldl_append]
  rw [flmUpd_fold_noupd nj i (List.range' 0 i) (0, 0, i)
    (fun j hj => by
      have hmem := List.mem_range'_1.mp hj
      exact hlt j (by omega))]
  rw [show len - i = (len - i - 1) + 1 by omega, List.range'_succ]
  simp only [List.foldl_cons]
  have hstep : flmUpd nj i (0, 0, i) i = (0, 0, i + 1) := by
    unfold flmUpd
    rw [if_pos (show i < nj i by rw [hni]; omega)]
    rw [hni, Nat.sub_self]
  rw [hstep]
  exact flmUpd_fold_noupd nj i _ (0, 0, i + 1) fun j _ => hle j

theorem flmGo_diag (a : Str) :
    ∀ (n i : Nat) (f : Nat → Nat), i + n = a.length →
      (0 < i → f (i - 1) = i) →
      J2Inv a a 0 0 a.length i f →
      flmGo a a 0 a.length n f (0, 0, i) i = (0, 0, a.length) := by
  intro n
  induction n with
  | zero =>
    intro i f hlen _ _
    simp only [flmGo]
    rw [show i = a.length by omega]
  | succ n ih =>
    intro i f hlen hf1 hJ
    simp only [flmGo]
    have hi_lt : i < a.length := by omega
    have hJ' : J2Inv a a 0 0 a.length (i + 1) (flmCol a (a.getD i 'a') 0 a.length f) :=
      J2Inv_step a a 0 0 a.length i f (Nat.zero_le i) hJ
    have hni : flmCol a (a.getD i 'a') 0 a.length f i = i + 1 := by
      unfold flmCol
      rw [if_pos ⟨Nat.zero_le i, hi_lt, rfl⟩]
      by_cases hi0 : i = 0
      · rw [if_pos hi0, hi0]
      · rw [if_neg hi0, hf1 (by omega)]
    have hle : ∀ j, flmCol a (a.getD i 'a') 0 a.length f j ≤ i + 1 := by
      intro j
      by_cases hz : flmCol a (a.getD i 'a') 0 a.length f j = 0
      · omega
      · obtain ⟨_, _, _, h4, _⟩ := hJ' j hz
        omega
    have hlt : ∀ j, j < i → flmCol a (a.getD i 'a') 0 a.length f j ≤ i := by
      intro j hj
      by_cases hz : flmCol a (a.getD i 'a') 0 a.length f j = 0
      · omega
      · obtain ⟨_, _, h3, _, _⟩ := hJ' j hz
        omega
    rw [flmScan_diag (flmCol a (a.getD i 'a') 0 a.length f) i a.length hi_lt hni hle hlt]
    have hf1' : 0 < i + 1 → flmCol a (a.getD i 'a') 0 a.length f ((i + 1) - 1) = i + 1 := by
      intro _
      rw [show i + 1 - 1 = i by omega]
      exact hni
    exact ih (i + 1) (flmCol a (a.getD i 'a') 0 a.length f) (by omega) hf1' hJ'

theorem findLongestMatch_diag (a : Str) :
    findLongestMatch a a 0 a.length 0 a.length = (0, 0, a.length) := by
  unfold findLongestMatch
  exact flmGo_diag a a.length 0 (fun _ => 0) (by omega)
    (fun h => absurd h (by omega)) (fun j hj => absurd rfl hj)

theorem matchSum_diag (a : Str) : matchSum a a 0 a.length 0 a.length = a.length := by
  rw [matchSum_eq, findLongestMatch_diag]
  by_cases h0 : 0 < a.length
  · rw [if_pos (show 0 < ((0 : Nat), (0 : Nat), a.length).2.2 from h0)]
    show a.length + matchSum a a 0 0 0 0 + matchSum a a (0 + a.length) a.length
      (0 + a.length) a.length = a.length
    rw [matchSum_empty a a 0 0 0 0 (le_refl 0),
        matchSum_empty a a (0 + a.length) a.length (0 + a.length) a.length (by omega)]
    omega
  · rw [if_neg (show ¬ 0 < ((0 : Nat), (0 : Nat), a.length).2.2 from h0)]
    omega

/-!  ## Lemmas: the similarity ratio -/

theorem simPair_snd_pos (x w : Str) : 0 < (simPair x w).2 := by
  unfold simPair
  by_cases h : x.length + w.length = 0
  · rw [if_pos h]
    omega
  · rw [if_neg h]
    show 0 < x.length + w.length
    omega

theorem simPair_fst_le_snd (x w : Str) : (simPair x w).1 ≤ (simPair x w).2 := by
  unfold simPair
  by_cases h : x.length + w.length = 0
  · rw [if_pos h]
  · rw [if_neg h]
    show 2 * matchSum x w 0 x.length 0 w.length ≤ x.length + w.length
    have h1 := matchSum_le x w ((x.length - 0) + (w.length - 0)) 0 x.length 0 w.length rfl
    omega

theorem simPair_self (w : Str) : (simPair w w).1 = (simPair w w).2 := by
  unfold simPair
  by_cases h : w.length + w.length = 0
  · rw [if_pos h]
  · rw [if_neg h]
    show 2 * matchSum w w 0 w.length 0 w.length = w.length + w.length
    rw [matchSum_diag]
    omega

theorem simPair_eq_of_full (x w : Str)
    (h : (simPair x w).1 = (simPair x w).2) : x = w := by
  unfold simPair at h
  by_cases h0 : x.length + w.length = 0
  · have hx : x = [] := List.length_eq_zero.mp (by omega)
    have hw : w = [] := List.length_eq_zero.mp (by omega)
    rw [hx, hw]
  · rw [if_neg h0] at h
    have h2 : 2 * matchSum x w 0 x.length 0 w.length = x.length + w.length := h
    have hle := matchSum_le x w ((x.length - 0) + (w.length - 0)) 0 x.length 0 w.length rfl
    have hfull := matchSum_full x w ((x.length - 0) + (w.length - 0)) 0 x.length 0 w.length
      rfl (by omega) (by omega)
    obtain ⟨hlen, hchain⟩ := hfull
    have hlen' : x.length = w.length := by omega
    apply List.ext_getElem hlen'
    intro i h1 h2'
    have hc := hchain i (by omega)
    rw [Nat.zero_add] at hc
    rw [List.getD_eq_getElem?_getD, List.getD_eq_getElem?_getD] at hc
    rw [List.getElem?_eq_getElem h1, List.getElem?_eq_getElem h2'] at hc
    simpa using hc

theorem ratioQ_eq (x w : Str) :
    ratioQ x w = ((simPair x w).1 : ℚ) / ((simPair x w).2 : ℚ) := by
  unfold ratioQ simPair
  by_cases h : x.length + w.length = 0
  · rw [if_pos h, if_pos h]
    norm_num
  · rw [if_neg h, if_neg h]
    push_cast
    ring

theorem ratioGeB_false_iff (x w : Str) (n d : Nat) (hd : 0 < d) :
    ratioGeB (simPair x w) n d = false ↔ ratioQ x w < (n : ℚ) / (d : ℚ) := by
  have h1 : (ratioGeB (simPair x w) n d = false) ↔
      d * (simPair x w).1 < n * (simPair x w).2 := by
    unfold ratioGeB
    simp only [decide_eq_false_iff_not, not_le]
  rw [h1, ratioQ_eq,
    div_lt_div_iff₀ (by exact_mod_cast simPair_snd_pos x w) (by exact_mod_cast hd)]
  rw [mul_comm ((simPair x w).1 : ℚ) (d : ℚ)]
  exact_mod_cast Iff.rfl

/-!  ## Lemmas: `get_close_matches` with `n=1` -/

theorem closeMatches1_none (w : Str) (l : List Str) (n d : Nat)
    (h : ∀ x ∈ l, ratioGeB (simPair x w) n d = false) :
    closeMatches1 w l n d = none := by
  unfold closeMatches1 scoredOf
  have hnil : (l.filterMap fun x =>
      if ratioGeB (simPair x w) n d then some (simPair x w, x) else none) = [] := by
    rw [List.filterMap_eq_nil_iff]
    intro x hx
    rw [h x hx]
    rfl
  rw [hnil]
  rfl

theorem closeMatches1_exact (w : Str) (l : List Str) (n d : Nat) (hnd : n ≤ d)
    (hw : w ∈ l)
    (hne : ∀ x ∈ l, x ≠ w → (simPair x w).1 < (simPair x w).2) :
    closeMatches1 w l n d = some w := by
  unfold closeMatches1
  have hcut : ratioGeB (simPair w w) n d = true := by
    unfold ratioGeB
    simp only [decide_eq_true_eq]
    rw [simPair_self]
    exact Nat.mul_le_mul_right _ hnd
  have hm : pickMax (scoredOf w l n d) = some (simPair w w, w) := by
    apply pickMax_eq
    · unfold scoredOf
      apply List.mem_filterMap.mpr
      refine ⟨w, hw, ?_⟩
      rw [hcut]
      rfl
    · intro y hy
      unfold scoredOf at hy
      obtain ⟨x, hx, hfx⟩ := List.mem_filterMap.mp hy
      by_cases hc : ratioGeB (simPair x w) n d = true
      · rw [hc] at hfx
        simp only [if_true] at hfx
        injection hfx with hfx'
        by_cases hxw : x = w
        · left
          rw [← hfx', hxw]
        · right
          rw [← hfx']
          simp only [pyPairLtB, Bool.or_eq_true, decide_eq_true_eq]
          left
          have hq : 0 < (simPair w w).2 := simPair_snd_pos w w
      
          have hlt := hne x hx hxw
          calc (simPair x w, x).1.1 * (simPair w w, w).1.2
              = (simPair x w).1 * (simPair w w).2 := rfl
            _ < (simPair x w).2 * (simPair w w).2 := (Nat.mul_lt_mul_right hq).mpr hlt
            _ = (simPair w w).2 * (simPair x w).2 := Nat.mul_comm _ _
            _ = (simPair w w).1 * (simPair x w).2 := by rw [simPair_self]
            _ = (simPair w w, w).1.1 * (simPair x w, x).1.2 := rfl
      · rw [if_neg hc] at hfx
        exact Option.noConfusion hfx
  rw [hm]
  rfl

/-!  ## Lemmas: duplicate titles (for the `title_url_map`) -/

theorem getLast?_cons_of_some {α : Type _} (x : α) (L : List α) (q : α)
    (h : L.getLast? = some q) : (x :: L).getLast? = some q := by
  cases L with
  | nil => exact Option.noConfusion h
  | cons y ys =>
    rw [List.getLast?_cons_cons]
    exact h

theorem alLookup_foldl_ins (t : Str) :
    ∀ (l : List (Option (Str × Str))) (m : List (Str × Str)),
      alLookup (l.foldl (fun m r =>
        match r with
        | some (title, url) => alInsert m title url
        | none => m) m) t =
      (match ((l.filterMap id).filter fun p => p.1 == t).getLast? with
      | some p => some p.2
      | none => alLookup m t) := by
  intro l
  induction l with
  | nil => intro m; rfl
  | cons r rest ih =>
    intro m
    cases r with
    | none =>
      simp only [List.foldl_cons, List.filterMap_cons]
      exact ih m
    | some p =>
      simp only [List.foldl_cons, List.filterMap_cons]
      obtain ⟨pt, pu⟩ := p
      rw [ih (alInsert m pt pu)]
      show (match (List.filter (fun p => p.1 == t) (List.filterMap id rest)).getLast? with
          | some p => some p.2
          | none => alLookup (alInsert m pt pu) t) =
        match (List.filter (fun p => p.1 == t)
            ((pt, pu) :: List.filterMap id rest)).getLast? with
          | some p => some p.2
          | none => alLookup m t
      by_cases hpt : pt = t
      · rw [List.filter_cons, if_pos (by simp [hpt])]
        cases hq : ((List.filterMap id rest).filter fun p => p.1 == t).getLast? with
        | some q =>
          rw [getLast?_cons_of_some (pt, pu) _ q hq]
        | none =>
          have hnil : ((List.filterMap id rest).filter fun p => p.1 == t) = [] := by
            cases hl : ((List.filterMap id rest).filter fun p => p.1 == t) with
            | nil => rfl
            | cons a as =>
              rw [hl] at hq
              rcases as with _ | ⟨b, bs⟩
              · exact Option.noConfusion hq
              · rw [List.getLast?_eq_getElem?] at hq
                have : (a :: b :: bs)[(a :: b :: bs).length - 1]? = some ((a :: b :: bs).getLast (by simp)) := by
                  rw [← List.getLast?_eq_getElem?]
                  exact List.getLast?_eq_getLast _ _
                rw [this] at hq
                exact Option.noConfusion hq
          rw [hnil]
          show alLookup (alInsert m pt pu) t = some pu
          rw [hpt]
          exact alLookup_alInsert_self m t pu
      · rw [List.filter_cons, if_neg (by simp [hpt])]
        cases hq : ((List.filterMap id rest).filter fun p => p.1 == t).getLast? with
        | some q => rfl
        | none => exact alLookup_alInsert_ne m pt t pu fun e => hpt e.symm

/-!  ## Lemmas: last non-empty path segment (for the slug map) -/

theorem filter_nonempty_getLast (l : List Str) (hne : l ≠ [])
    (hlast : l.getLastD [] ≠ []) :
    ((l.filter fun s => !(s == [])).getLast?) = some (l.getLastD []) := by
  have hlasteq : l.getLast hne = l.getLastD [] := by
    rw [List.getLastD_eq_getLast?, List.getLast?_eq_getLast l hne]
    rfl
  conv_lhs => rw [← List.dropLast_concat_getLast hne]
  rw [List.filter_append]
  have hkeep : List.filter (fun s => !(s == [])) [l.getLast hne] = [l.getLast hne] := by
    rw [List.filter_cons, if_pos (by rw [hlasteq]; simpa using hlast)]
    rfl
  rw [hkeep, List.getLast?_concat, hlasteq]

theorem filter_last_empty (l : List Str) (hne : l ≠ [])
    (hlast : l.getLastD [] = []) :
    (l.filter fun s => !(s == [])) = l.dropLast.filter fun s => !(s == []) := by
  conv_lhs => rw [← List.dropLast_concat_getLast hne]
  rw [List.filter_append]
  have hlasteq : l.getLast hne = [] := by
    rw [List.getLastD_eq_getLast?, List.getLast?_eq_getLast l hne] at hlast
    exact hlast
  have hdrop : List.filter (fun s => !(s == [])) [l.getLast hne] = [] := by
    rw [List.filter_cons, if_neg (by rw [hlasteq]; simp)]
    rfl
  rw [hdrop, List.append_nil]

theorem dropLast_getLastD (l : List Str) (h : 2 ≤ l.length) :
    l.dropLast.getLastD [] = l.getD (l.length - 2) [] := by
  rw [List.getLastD_eq_getLast?, List.getLast?_eq_getElem?, List.getElem?_dropLast,
      List.length_dropLast]
  rw [if_pos (by omega)]
  rw [List.getD_eq_getElem?_getD]
  congr 2

/-!  ## Lemmas: image URL collection -/

theorem imageUrls_eq_amended (resolve : Str → Str) (p : Page) :
    imageUrls resolve p = specImageUrlsAmended resolve p := by
  unfold imageUrls specImageUrlsAmended
  generalize p.imgSrcs.take 3 = l
  induction l with
  | nil => rfl
  | cons o rest ih =>
    cases o with
    | none =>
      simp only [List.filterMap_cons, List.foldr_cons]
      exact ih
    | some src =>
      simp only [List.filterMap_cons, List.foldr_cons]
      by_cases hsrc : src == []
      · rw [if_pos hsrc]
        simp only [hsrc]
        exact ih
      · rw [if_neg hsrc]
        simp only [Bool.not_eq_true] at hsrc
        rw [if_neg (by simp [hsrc])]
        simp only [List.map_cons]
        rw [ih]

theorem imageUrls_le_three (resolve : Str → Str) (p : Page) :
    (imageUrls resolve p).length ≤ 3 := by
  unfold imageUrls
  rw [List.length_map]
  calc ((p.imgSrcs.take 3).filterMap fun o =>
        match o with
        | some src => if src == [] then none else some src
        | none => none).length
      ≤ (p.imgSrcs.take 3).length := List.length_filterMap_le _ _
    _ ≤ 3 := by rw [List.length_take]; omega

/-!  ## The claims -/

/-- C1: for every query and candidate set (with at least one candidate, so
that the matcher is reached at all), if the slug similarity of the
normalized query slug to every hyphen-containing candidate slug is below
0.5 then the slug pass finds nothing and the matcher falls back to title
matching; if additionally the title similarity of the raw query to every
resolved title is below 0.6, `run_blog_search` returns the no-match result
`message = "No matching blog found."` rather than an error. -/
theorem claim_C1 (env : Env) (urls : List Str) (q : Str)
    (h0 : urls ≠ [])
    (h1 : ∀ s ∈ alKeys (slugUrlMap urls), ratioQ s (slugify q) < (1 : ℚ) / (2 : ℚ))
    (h2 : ∀ t ∈ alKeys (titleUrlMap env.titleOf urls), ratioQ t q < (3 : ℚ) / (5 : ℚ)) :
    slugMatch urls q = none ∧
      runBlogSearchOn env urls q = Res.message "No matching blog found.".data := by
  have hs : slugMatch urls q = none := by
    unfold slugMatch
    apply closeMatches1_none
    intro x hx
    exact (ratioGeB_false_iff x (slugify q) 1 2 (by omega)).mpr (by exact_mod_cast h1 x hx)
  have ht : closeMatches1 q (alKeys (titleUrlMap env.titleOf urls)) 3 5 = none := by
    apply closeMatches1_none
    intro x hx
    exact (ratioGeB_false_iff x q 3 5 (by omega)).mpr (by exact_mod_cast h2 x hx)
  have hmp : matchPhase env.titleOf urls q = none := by
    unfold matchPhase
    rw [hs, ht]
  refine ⟨hs, ?_⟩
  unfold runBlogSearchOn
  rw [if_neg (fun hemp => h0 (List.isEmpty_iff.mp hemp)), hmp]

/-- Witness for C1: one candidate whose slug `alpha-beta` is far from the
query `zzz zz` (ratio 1/8 < 0.5) and whose title `Some Title` is far from
it too (ratio 1/8 < 0.6): the search returns the no-match message. -/
theorem claim_C1_witness :
    slugMatch ["https://site.com/blog/alpha-beta".data] "zzz zz".data = none ∧
      runBlogSearchOn
        ⟨fun _ => some "Some Title".data, fun _ => none, fun _ s => s⟩
        ["https://site.com/blog/alpha-beta".data] "zzz zz".data =
        Res.message "No matching blog found.".data := by
  apply claim_C1
  · decide
  · intro s hs
    have hk : alKeys (slugUrlMap ["https://site.com/blog/alpha-beta".data]) =
        ["alpha-beta".data] := by decide
    rw [hk] at hs
    have hs' : s = "alpha-beta".data := by simpa using hs
    rw [hs']
    have h := (ratioGeB_false_iff "alpha-beta".data (slugify "zzz zz".data) 1 2
      (by omega)).mp (by decide)
    exact_mod_cast h
  · intro t ht
    have hk : alKeys (titleUrlMap (fun _ => some "Some Title".data)
        ["https://site.com/blog/alpha-beta".data]) = ["Some Title".data] := by decide
    rw [show (⟨fun _ => some "Some Title".data, fun _ => none, fun _ s => s⟩ : Env).titleOf =
      fun _ => some "Some Title".data from rfl] at ht
    rw [hk] at ht
    have ht' : t = "Some Title".data := by simpa using ht
    rw [ht']
    have h := (ratioGeB_false_iff "Some Title".data "zzz zz".data 3 5
      (by omega)).mp (by decide)
    exact_mod_cast h

/-- C2: whenever the slugified query is literally a key of the slug map,
the slug branch fires with exactly that slug (its ratio is 1.0, every
other candidate scores strictly below 1.0, and `get_close_matches` picks
the unique maximum), and the matched URL is that slug's URL. -/
theorem claim_C2 (env : Env) (urls : List Str) (q u : Str)
    (h : alLookup (slugUrlMap urls) (slugify q) = some u) :
    slugMatch urls q = some (slugify q) ∧
      (matchPhase env.titleOf urls q).map Prod.snd = some u := by
  have hmem : slugify q ∈ alKeys (slugUrlMap urls) := alLookup_some_mem _ _ _ h
  have hs : slugMatch urls q = some (slugify q) := by
    unfold slugMatch
    apply closeMatches1_exact (slugify q) (alKeys (slugUrlMap urls)) 1 2 (by omega) hmem
    intro x _ hxne
    exact lt_of_le_of_ne (simPair_fst_le_snd x (slugify q))
      fun he => hxne (simPair_eq_of_full x (slugify q) he)
  refine ⟨hs, ?_⟩
  simp only [matchPhase, hs, h, Option.getD_some, Option.map_some']

/-- Witness for C2: the query `field service` slugifies to
`field-service`, which is a key of the slug map; the matcher picks it and
returns its URL. -/
theorem claim_C2_witness :
    slugMatch ["https://site.com/field-service".data] "field service".data =
        some (slugify "field service".data) ∧
      (matchPhase (fun _ => none) ["https://site.com/field-service".data]
          "field service".data).map Prod.snd =
        some "https://site.com/field-service".data := by
  apply claim_C2 ⟨fun _ => none, fun _ => none, fun _ s => s⟩
  decide

/-- C3 counterexample: two candidates resolve to the same title
`Shared Title`; the title map sends it to the URL of the SECOND (last)
candidate, not the first as the claim states. -/
theorem claim_C3_counterexample :
    alLookup (titleUrlMap
      (fun u => if u = "https://site.com/first-post".data ∨
          u = "https://site.com/second-post".data
        then some "Shared Title".data else none)
      ["https://site.com/first-post".data, "https://site.com/second-post".data])
      "Shared Title".data = some "https://site.com/second-post".data ∧
    "https://site.com/second-post".data ≠ "https://site.com/first-post".data := by
  refine ⟨by decide, by decide⟩

/-- C3 (amended): when several resolved candidates share a title, the
title map sends the title to the URL of the LAST candidate (in
title-resolution input order) that resolved to it — each `dict`
assignment overwrites the previous value. -/
theorem claim_C3_amended (titleOf : Str → Option Str) (urls : List Str) (t : Str) :
    alLookup (titleUrlMap titleOf urls) t =
      ((urls.filterMap fun u => (titleOf u).map fun ti => (ti, u)).filter
        fun p => p.1 == t).getLast?.map Prod.snd := by
  unfold titleUrlMap
  rw [alLookup_foldl_ins t (urls.map fun url => (titleOf url).map fun t => (t, url)) []]
  have hfm : List.filterMap id (urls.map fun url => (titleOf url).map fun ti => (ti, url)) =
      urls.filterMap fun u => (titleOf u).map fun ti => (ti, u) := by
    rw [List.filterMap_map]
    rfl
  rw [hfm]
  cases hq : ((urls.filterMap fun u => (titleOf u).map fun ti => (ti, u)).filter
      fun p => p.1 == t).getLast? with
  | some q => rfl
  | none => rfl

/-- C4 counterexample: for `https://site.com/a-b//` the last non-empty
path segment is `a-b`, which contains a hyphen, yet the URL contributes no
entry to the slug map: the code strips only a single trailing slash, takes
the empty final segment's predecessor `""`, and drops it for lack of a
hyphen. -/
theorem claim_C4_counterexample :
    specLastNonEmptySegment "https://site.com/a-b//".data = some "a-b".data ∧
    "a-b".data.any (fun c => c == '-') = true ∧
    slugOf "https://site.com/a-b//".data = none ∧
    slugUrlMap ["https://site.com/a-b//".data] = [] := by
  refine ⟨by decide, by decide, by decide, by decide⟩

/-- C4 (amended): for a candidate URL whose path splits into at least two
segments and does not end in a double slash, the slug used for matching is
the last non-empty path segment and the URL contributes a slug entry iff
that segment contains a hyphen.  (With a single trailing slash the code
takes the second-to-last raw segment, which is then the last non-empty
one; with a double trailing slash it takes an empty string instead.) -/
theorem claim_C4_amended (url : Str)
    (h2 : 2 ≤ (splitChar '/' (urlPath url)).length)
    (hnd : (splitChar '/' (urlPath url)).getLastD [] = [] →
      (splitChar '/' (urlPath url)).getD ((splitChar '/' (urlPath url)).length - 2) [] ≠ []) :
    slugOf url =
      (match specLastNonEmptySegment url with
      | some s => if s.any (fun c => c == '-') then some s else none
      | none => none) := by
  unfold slugOf specLastNonEmptySegment pySlug
  rw [if_pos h2]
  have hne : splitChar '/' (urlPath url) ≠ [] := by
    intro hnil
    rw [hnil] at h2
    simp at h2
  by_cases hlast : (splitChar '/' (urlPath url)).getLastD [] = []
  · rw [if_pos hlast]
    have hsecond := hnd hlast
    have hdne : (splitChar '/' (urlPath url)).dropLast ≠ [] := by
      intro hd
      have hlen := List.length_dropLast (splitChar '/' (urlPath url))
      rw [hd] at hlen
      simp at hlen
      omega
    rw [filter_last_empty (splitChar '/' (urlPath url)) hne hlast]
    rw [filter_nonempty_getLast (splitChar '/' (urlPath url)).dropLast hdne
      (by rw [dropLast_getLastD (splitChar '/' (urlPath url)) h2]; exact hsecond)]
    rw [dropLast_getLastD (splitChar '/' (urlPath url)) h2]
  · rw [if_neg hlast]
    rw [filter_nonempty_getLast (splitChar '/' (urlPath url)) hne hlast]

/-- Witness for C4 (amended): `https://site.com/x/a-b/` has path segments
`["", "x", "a-b", ""]`; the slug is the last non-empty segment `a-b` and
it yields an entry since it contains a hyphen. -/
theorem claim_C4_witness :
    slugOf "https://site.com/x/a-b/".data =
      (match specLastNonEmptySegment "https://site.com/x/a-b/".data with
      | some s => if s.any (fun c => c == '-') then some s else none
      | none => none) :=
  claim_C4_amended "https://site.com/x/a-b/".data (by decide) (by decide)

/-- C5: whenever the slug branch selects a slug, the returned display
title is a fresh title resolution of the matched URL — not a lookup in the
title map — and when that resolution returns nothing the display title is
exactly the string `Matched via URL: <slug>`. -/
theorem claim_C5 (env : Env) (urls : List Str) (q s u : Str)
    (hs : slugMatch urls q = some s)
    (hu : alLookup (slugUrlMap urls) s = some u) :
    matchPhase env.titleOf urls q =
      some ((env.titleOf u).getD ("Matched via URL: ".data ++ s), u) := by
  simp only [matchPhase, hs, hu, Option.getD_some]
  cases ht : env.titleOf u with
  | some t => rfl
  | none => rfl

/-- Witness for C5: the slug `field-service` matches and the title oracle
returns nothing for the URL, so the display title is the synthesized
`Matched via URL: field-service`. -/
theorem claim_C5_witness :
    matchPhase (fun _ => none) ["https://site.com/field-service".data]
        "field service".data =
      some ("Matched via URL: field-service".data,
        "https://site.com/field-service".data) :=
  claim_C5 ⟨fun _ => none, fun _ => none, fun _ s => s⟩
    ["https://site.com/field-service".data] "field service".data
    "field-service".data "https://site.com/field-service".data
    (by decide) (by decide)

/-- C6 counterexample: a page whose first image element has no `src`
followed by three images with `src` attributes.  The first three `src`
attributes among the image elements are `a`, `b`, `c`, but the code
examines only the first three elements, so it returns two URLs, not
three. -/
theorem claim_C6_counterexample :
    imageUrls (fun s => s)
      ⟨none, none, [none, some "/img/a.png".data, some "/img/b.png".data,
        some "/img/c.png".data]⟩ =
      ["/img/a.png".data, "/img/b.png".data] ∧
    specImageUrls (fun s => s)
      ⟨none, none, [none, some "/img/a.png".data, some "/img/b.png".data,
        some "/img/c.png".data]⟩ =
      ["/img/a.png".data, "/img/b.png".data, "/img/c.png".data] ∧
    (["/img/a.png".data, "/img/b.png".data] : List Str) ≠
      ["/img/a.png".data, "/img/b.png".data, "/img/c.png".data] := by
  refine ⟨by decide, by decide, by decide⟩

/-- C6 (amended): the image list is built by examining only the first 3
image elements of the document, resolving the `src` of those that have a
non-empty one (an element without `src` is skipped but still consumes one
of the three slots); the list never holds more than 3 URLs. -/
theorem claim_C6_amended (resolve : Str → Str) (p : Page) :
    imageUrls resolve p = specImageUrlsAmended resolve p ∧
      (imageUrls resolve p).length ≤ 3 :=
  ⟨imageUrls_eq_amended resolve p, imageUrls_le_three resolve p⟩

/-- C7: if the crawled-and-filtered URL set is empty, `run_blog_search`
returns the error `No blog URLs found from sitemap.` (not the no-match
message) and the endpoint surfaces it as a 500 with that detail; in
particular a failed root-sitemap fetch produces an empty URL set. -/
theorem claim_C7 (cenv : CrawlEnv) (env : Env) (q : Str) :
    (getAllBlogPageUrls cenv = [] →
      runBlogSearch cenv env q = Res.error "No blog URLs found from sitemap.".data ∧
      searchBlogEndpoint cenv env q =
        Response.httpError 500 "No blog URLs found from sitemap.".data) ∧
    (cenv.rootLocs = none → getAllBlogPageUrls cenv = []) := by
  constructor
  · intro hempty
    have hrun : runBlogSearch cenv env q =
        Res.error "No blog URLs found from sitemap.".data := by
      unfold runBlogSearch runBlogSearchOn
      rw [hempty]
      rfl
    refine ⟨hrun, ?_⟩
    unfold searchBlogEndpoint
    rw [hrun]
    rfl
  · intro hroot
    unfold getAllBlogPageUrls getSitemapUrls
    rw [hroot]
    rfl

/-- Witness for C7: a crawl environment whose root sitemap fetch failed:
the endpoint answers 500 with the sitemap error message. -/
theorem claim_C7_witness :
    searchBlogEndpoint ⟨none, fun _ => none⟩
        ⟨fun _ => none, fun _ => none, fun _ s => s⟩ "anything".data =
      Response.httpError 500 "No blog URLs found from sitemap.".data ∧
    getAllBlogPageUrls ⟨none, fun _ => none⟩ = [] := by
  have h := claim_C7 ⟨none, fun _ => none⟩
    ⟨fun _ => none, fun _ => none, fun _ s => s⟩ "anything".data
  exact ⟨(h.1 (h.2 rfl)).2, h.2 rfl⟩

/-- C8: the endpoint maps each `run_blog_search` outcome as the claim
states: an error dict becomes a 500 with that message; a message dict
becomes a 200 whose `message` is set and whose title/url/preview/content
fields are `None`; a success dict becomes a 200 with the full payload. -/
theorem claim_C8 (env : Env) (urls : List Str) (q : Str) :
    searchBlogEndpointOn env urls q =
      (match runBlogSearchOn env urls q with
      | Res.error e => Response.httpError 500 e
      | Res.message m =>
          Response.ok ⟨none, none, none, none, [], some m, none⟩
      | Res.success t u pv fc im =>
          Response.ok ⟨some t, some u, some pv, some fc, im, none, none⟩) := by
  unfold searchBlogEndpointOn
  cases hr : runBlogSearchOn env urls q with
  | error e => rfl
  | message m => rfl
  | success t u pv fc im => rfl

/-- C9: the matcher is deterministic; on a frozen environment (fixed URL
list and fixed title-resolution oracle) running the matching phase — or
the whole search — twice gives identical results, because the embedding of
the matching steps is a pure function of those inputs. -/
theorem claim_C9 (env : Env) (urls : List Str) (q : Str) :
    matchPhase env.titleOf urls q = matchPhase env.titleOf urls q ∧
      runBlogSearchOn env urls q = runBlogSearchOn env urls q :=
  ⟨rfl, rfl⟩

/-- C10: every result of `run_blog_search` is exactly one of three dict
shapes — an `error`-only dict, a `message`-only dict, or the success
payload with the five content keys and neither `error` nor `message` —
and in the success payload `content_preview` is the first 300 characters
of `full_content`. -/
theorem claim_C10 (env : Env) (urls : List Str) (q : Str) :
    (∃ e, dictOf (runBlogSearchOn env urls q) = [("error".data, RVal.s e)]) ∨
    (∃ m, dictOf (runBlogSearchOn env urls q) = [("message".data, RVal.s m)]) ∨
    (∃ t u fc im, dictOf (runBlogSearchOn env urls q) =
      [("title".data, RVal.s t), ("url".data, RVal.s u),
        ("content_preview".data, RVal.s (fc.take 300)),
        ("full_content".data, RVal.s fc), ("image_urls".data, RVal.l im)]) := by
  by_cases hemp : urls.isEmpty
  · have hrun : runBlogSearchOn env urls q =
        Res.error "No blog URLs found from sitemap.".data := by
      unfold runBlogSearchOn
      rw [if_pos hemp]
    rw [hrun]
    exact Or.inl ⟨_, rfl⟩
  · cases hmp : matchPhase env.titleOf urls q with
    | none =>
      have hrun : runBlogSearchOn env urls q =
          Res.message "No matching blog found.".data := by
        unfold runBlogSearchOn
        rw [if_neg hemp, hmp]
      rw [hrun]
      exact Or.inr (Or.inl ⟨_, rfl⟩)
    | some tu =>
      obtain ⟨t, u⟩ := tu
      have hrun : runBlogSearchOn env urls q = finishFetch env t u := by
        unfold runBlogSearchOn
        rw [if_neg hemp, hmp]
      rw [hrun]
      cases hfp : env.fetchPage u with
      | none =>
        have hff : finishFetch env t u =
            Res.error ("Failed to fetch blog HTML for ".data ++ u ++ ".".data) := by
          simp only [finishFetch, hfp]
        rw [hff]
        exact Or.inl ⟨_, rfl⟩
      | some page =>
        cases hec : extractBlogContent page with
        | none =>
          have hff : finishFetch env t u =
              Res.error "Failed to extract blog content.".data := by
            simp only [finishFetch, hfp, hec]
          rw [hff]
          exact Or.inl ⟨_, rfl⟩
        | some content =>
          by_cases hc : content = []
          · have hff : finishFetch env t u =
                Res.error "Failed to extract blog content.".data := by
              simp only [finishFetch, hfp, hec]
              rw [if_pos hc]
            rw [hff]
            exact Or.inl ⟨_, rfl⟩
          · have hff : finishFetch env t u =
                Res.success t u (content.take 300) content
                  (imageUrls (env.resolve u) page) := by
              simp only [finishFetch, hfp, hec]
              rw [if_neg hc]
            rw [hff]
            exact Or.inr (Or.inr ⟨t, u, content, imageUrls (env.resolve u) page, rfl⟩)
